import Mathlib

/-!
Verification of the record-normalization and field-reconciliation pipeline
of `sra2cmap.py` (SRA metadata → CMAP import converter).

The embedding mirrors the source:
  * `normalize`     — the field-name canonicalizer (snake_case),
  * `format_record` — the per-record formatter deriving `time`, `lat`,
                      `lon`, `depth`,
  * `ordered_flds`, `accepts`, `processRows` — the field-reconciliation
    and row-acceptance policy of `main`.

Python regular-expression matching (`re.search`) is modelled by explicit
leftmost-search backtracking matchers specialized to the two patterns the
source uses, with Python's greedy, alternatives-in-preference-order
semantics.  Python `dict`s are modelled as insertion-ordered association
lists; `float` values are modelled as `ℚ`.  The external `dateparser`
library is modelled as an injected function `parse : String → Option
String` returning the ISO rendering of a successfully parsed date, `none`
on failure; a Python exception escaping `format_record` is modelled as
`Except.error`.
-/

namespace Sra2cmap

/-- ASCII character class `[A-Z]`, as Python's `re` interprets it. -/
def isUpperAZ (c : Char) : Bool := 'A' ≤ c && c ≤ 'Z'

/-- ASCII character class `[a-z]`. -/
def isLowerAZ (c : Char) : Bool := 'a' ≤ c && c ≤ 'z'

/-- ASCII character class `[0-9]`, Python's `\d` for ASCII input. -/
def isDigit09 (c : Char) : Bool := '0' ≤ c && c ≤ '9'

/-- Python's `\s` class (ASCII part): space, tab, newline, CR, VT, FF. -/
def isSpaceCh (c : Char) : Bool :=
  c = ' ' || c = '\t' || c = '\n' || c = '\r' || c = '\x0b' || c = '\x0c'

/-- ASCII lowering, as `str.lower` acts on ASCII letters. -/
def lowerCh (c : Char) : Char :=
  if isUpperAZ c then Char.ofNat (c.toNat + 32) else c

/-! ### Backtracking model of the source's regular expressions -/

/-- Alternatives for the greedy `\d+` at the head of `s`, in the order a
backtracking engine tries them: the maximal digit run first, then ever
shorter nonempty prefixes.  Each alternative is (consumed digits, rest). -/
def numAlts (s : List Char) : List (List Char × List Char) :=
  let d := s.takeWhile isDigit09
  let r := s.dropWhile isDigit09
  (List.range d.length).map fun i =>
    let n := d.length - i
    (d.take n, d.drop n ++ r)

/-- Alternatives for the optional fraction `(?:\.\d+)?`: with the fraction
(longest digit run first) before the empty alternative, as a greedy `?`
tries them. -/
def fracAlts : List Char → List (List Char × List Char)
  | '.' :: t => ((numAlts t).map fun p => ('.' :: p.1, p.2)) ++ [([], '.' :: t)]
  | s => [([], s)]

/-- Alternatives for the decimal-number group `(\d+(?:\.\d+)?)` in
backtracking preference order. -/
def decAlts (s : List Char) : List (List Char × List Char) :=
  (numAlts s).flatMap fun p => (fracAlts p.2).map fun q => (p.1 ++ q.1, q.2)

/-- Alternatives for greedy `\s*`: the rest of the input after consuming
the whitespace run, longest consumption first, down to consuming nothing. -/
def wsRests (s : List Char) : List (List Char) :=
  let w := (s.takeWhile isSpaceCh).length
  (List.range (w + 1)).map fun i => s.drop (w - i)

/-- Alternatives for an optional single-character class such as `([NS])?`:
take the character when it is in the class (greedy), else skip. -/
def optCharAlts (cls : List Char) : List Char → List (Option Char × List Char)
  | [] => [(none, [])]
  | c :: t => if c ∈ cls then [(some c, t), (none, c :: t)] else [(none, c :: t)]

/-- The single separator `(?:[,\s])`: exactly one comma-or-whitespace
character. -/
def sepRest : List Char → Option (List Char)
  | [] => none
  | c :: t => if c = ',' || isSpaceCh c then some t else none

/-- The four captured groups of the source's combined lat/lon pattern
`(\d+(?:\.\d+)?)\s*([NS])?(?:[,\s])(\d+(?:\.\d+)?)\s*([EW])?`. -/
structure LatLonMatch where
  lat : String
  latDir : Option Char
  lon : String
  lonDir : Option Char
deriving DecidableEq, Repr

/-- Attempt the lat/lon pattern anchored at the head of `s`, exploring the
alternatives of each greedy piece in Python's backtracking order. -/
def matchLatLonAt (s : List Char) : Option LatLonMatch :=
  (decAlts s).findSome? fun p1 =>
  (wsRests p1.2).findSome? fun r2 =>
  (optCharAlts ['N', 'S'] r2).findSome? fun q1 =>
  match sepRest q1.2 with
  | none => none
  | some r4 =>
    (decAlts r4).findSome? fun p2 =>
    (wsRests p2.2).findSome? fun r6 =>
    (optCharAlts ['E', 'W'] r6).findSome? fun q2 =>
    some ⟨String.mk p1.1, q1.1, String.mk p2.1, q2.1⟩

/-- `re.search` with the lat/lon pattern: try each start position left to
right, returning the captures of the first position that matches. -/
def searchLatLon : List Char → Option LatLonMatch
  | [] => none
  | c :: t =>
    match matchLatLonAt (c :: t) with
    | some m => some m
    | none => searchLatLon t

/-- `re.search` with the depth pattern `(\d+(\.\d+)?)`, returning group 1:
nothing follows the group, so the greedy first alternative at the first
position holding a digit wins. -/
def searchDec : List Char → Option (List Char)
  | [] => none
  | c :: t =>
    match (decAlts (c :: t)).head? with
    | some p => some p.1
    | none => searchDec t

/-- Numeric value of a digit string (most significant first). -/
def digitsVal (l : List Char) : ℕ :=
  l.foldl (fun a c => a * 10 + (c.toNat - 48)) 0

/-- Python `float()` on a string matched by `\d+(\.\d+)?`, modelled
exactly over `ℚ`. -/
def parseDec (s : String) : ℚ :=
  let l := s.toList
  let ip := l.takeWhile fun c => c ≠ '.'
  let fp := (l.dropWhile fun c => c ≠ '.').drop 1
  (digitsVal ip : ℚ) + mkRat (digitsVal fp) (10 ^ fp.length)

/-! ### Records -/

/-- A value in a record: source CSV cells are strings; the formatter
writes `float`s to `lat`/`lon`. -/
inductive Value where
  | str : String → Value
  | num : ℚ → Value
deriving DecidableEq, Repr

/-- Python truthiness of a record value: the empty string and `0.0` are
falsy. -/
def truthy : Value → Bool
  | .str s => s ≠ ""
  | .num q => q ≠ 0

/-- A record: a Python `dict` as an insertion-ordered association list. -/
abbrev Record := List (String × Value)

/-- `rec.get(key)`: the value at `key`, `none` when the key is absent. -/
def getVal : Record → String → Option Value
  | [], _ => none
  | (k, v) :: t, key => if k = key then some v else getVal t key

/-- `rec[key] = v`: replace the value at an existing key in place, else
append the new key at the end (Python 3.7 dict semantics). -/
def setVal : Record → String → Value → Record
  | [], key, v => [(key, v)]
  | (k, w) :: t, key, v =>
    if k = key then (k, v) :: t else (k, w) :: setVal t key v

/-! ### `format_record` -/

/-- One iteration of the source's date loop for candidate field `fld`:
when the field holds a truthy value, parse it and overwrite `time` with
the ISO rendering.  When the external parser returns no result the source
calls `.isoformat()` on `None`, an `AttributeError`; a non-string truthy
value would make `dateparser.parse` raise a `TypeError`. -/
def dateField (parse : String → Option String) (rec : Record) (fld : String) :
    Except String Record :=
  match getVal rec fld with
  | none => .ok rec
  | some v =>
    if truthy v then
      match v with
      | .str s =>
        match parse s with
        | some iso => .ok (setVal rec "time" (.str iso))
        | none => .error "AttributeError"
      | .num _ => .error "TypeError"
    else .ok rec

/-- The coordinate rule: search `lat_lon` for the combined pattern; on a
match parse both numbers, negate on hemisphere `S` respectively `W`, and
write `lat` and `lon`. -/
def latLonStep (rec : Record) : Except String Record :=
  match getVal rec "lat_lon" with
  | none => .ok rec
  | some v =>
    if truthy v then
      match v with
      | .str s =>
        match searchLatLon s.toList with
        | some m =>
          let lat := parseDec m.lat
          let lon := parseDec m.lon
          let lat := if m.latDir = some 'S' then -lat else lat
          let lon := if m.lonDir = some 'W' then -lon else lon
          .ok (setVal (setVal rec "lat" (.num lat)) "lon" (.num lon))
        | none => .ok rec
      | .num _ => .error "TypeError"
    else .ok rec

/-- `rec.get('depth') or rec.get('sample_depth')`: the first truthy of the
two, with Python's `or` falling through on falsy (absent or empty) left
operands. -/
def depthCand (rec : Record) : Option Value :=
  match getVal rec "depth" with
  | some v => if truthy v then some v else getVal rec "sample_depth"
  | none => getVal rec "sample_depth"

/-- The depth rule: search the candidate for the first decimal-number
substring and overwrite `depth` with it as text; leave the record
unchanged when nothing matches. -/
def depthStep (rec : Record) : Except String Record :=
  match depthCand rec with
  | none => .ok rec
  | some v =>
    if truthy v then
      match v with
      | .str s =>
        match searchDec s.toList with
        | some g => .ok (setVal rec "depth" (.str (String.mk g)))
        | none => .ok rec
      | .num _ => .error "TypeError"
    else .ok rec

/-- `format_record`: the date loop over `time` then `collection_date`,
then the coordinate rule, then the depth rule, an uncaught exception
aborting the whole computation. -/
def format_record (parse : String → Option String) (rec : Record) :
    Except String Record :=
  match dateField parse rec "time" with
  | .error e => .error e
  | .ok r1 =>
    match dateField parse r1 "collection_date" with
    | .error e => .error e
    | .ok r2 =>
      match latLonStep r2 with
      | .error e => .error e
      | .ok r3 => depthStep r3

/-! ### `normalize` -/

/-- Whether the run of `[A-Z]` at the head of the remaining input is
immediately followed by `_` — the lookahead of the source's
`([A-Z]+)(?=[_])`. -/
def afterUppersIsUnderscore (l : List Char) : Bool :=
  match l.dropWhile isUpperAZ with
  | '_' :: _ => true
  | _ => false

/-- `re.sub('([A-Z]+)(?=[_])', lowered, s)`: lowercase every maximal
uppercase run that is immediately followed by an underscore. -/
def capsUnderSub : List Char → List Char
  | [] => []
  | c :: t =>
    if isUpperAZ c && afterUppersIsUnderscore t then
      lowerCh c :: capsUnderSub t
    else c :: capsUnderSub t

/-- `s.split('_')`. -/
def splitUnderscore : List Char → List (List Char)
  | [] => [[]]
  | c :: t =>
    if c = '_' then [] :: splitUnderscore t
    else
      match splitUnderscore t with
      | [] => [[c]]
      | g :: gs => (c :: g) :: gs

/-- `'_'.join(groups)`. -/
def joinUnderscore : List (List Char) → List Char
  | [] => []
  | [g] => g
  | g :: gs => g ++ '_' :: joinUnderscore gs

/-- `re.sub` with `'((?<=[a-z0-9])[A-Z]|(?!^)[A-Z](?=[a-z]))'` replaced by
`'_\1'`: insert an underscore before each uppercase letter that follows a
lowercase letter or digit, or is not first and precedes a lowercase
letter.  `prev` is the original character before the current position. -/
def camelSub (prev : Option Char) : List Char → List Char
  | [] => []
  | c :: t =>
    let beforeLower :=
      match t with
      | c2 :: _ => isLowerAZ c2
      | [] => false
    let afterLowerDigit :=
      match prev with
      | some p => isLowerAZ p || isDigit09 p
      | none => false
    if isUpperAZ c && (afterLowerDigit || (prev.isSome && beforeLower)) then
      '_' :: c :: camelSub (some c) t
    else c :: camelSub (some c) t

/-- The source's `normalize`: lowercase uppercase runs before an
underscore; then, when an underscore is present, lowercase every
underscore-separated segment; otherwise split camelCase at letter-case
boundaries and lowercase the whole. -/
def normalize (s : String) : String :=
  let l := capsUnderSub s.toList
  let l2 :=
    if l.contains '_' then
      joinUnderscore ((splitUnderscore l).map (List.map lowerCh))
    else
      (camelSub none l).map lowerCh
  String.mk l2

/-! ### `main`'s field reconciliation and row acceptance -/

/-- The required canonical fields, in the source's fixed order. -/
def req_flds : List String := ["time", "lat", "lon", "depth"]

/-- One `OrderedDict` insertion: a repeated key keeps its first position. -/
def insertKey (acc : List String) (x : String) : List String :=
  if x ∈ acc then acc else acc ++ [x]

/-- The output column list: the keys of
`OrderedDict((normalize(s), s) for s in req_flds + fieldnames)`. -/
def ordered_flds (fieldnames : List String) : List String :=
  ((req_flds ++ fieldnames).map normalize).foldl insertKey []

/-- The elements of `l` not in `acc`, in first-seen order, deduplicated. -/
def restNew (acc : List String) : List String → List String
  | [] => []
  | x :: t => if x ∈ acc then restNew acc t else x :: restNew (acc ++ [x]) t

/-- First-occurrence deduplication of a list of names. -/
def dedupFirst (l : List String) : List String := restNew [] l

/-- The source's acceptance test `all([fld in row for fld in req_flds])`:
every required field is a key of the (formatted, since `format_record`
mutates the row in place) record. -/
def accepts (row : Record) : Bool :=
  req_flds.all fun f => (getVal row f).isSome

/-- The spec's acceptance test, stated from its words: every required
field holds a non-empty value in the cleaned record.  (Kept beside
`accepts`, the source's test, for comparison.) -/
def acceptsSpec (row : Record) : Bool :=
  req_flds.all fun f =>
    match getVal row f with
    | some v => truthy v
    | none => false

/-- The row loop of `main`: format each row, keep it when `accepts`
holds, else divert it to the diagnostic list; an exception escaping
`format_record` aborts the loop. -/
def processRows (parse : String → Option String) :
    List Record → Except String (List Record × List Record)
  | [] => .ok ([], [])
  | r :: t =>
    match format_record parse r with
    | .error e => .error e
    | .ok clean =>
      match processRows parse t with
      | .error e => .error e
      | .ok (acc, skip) =>
        if accepts clean then .ok (clean :: acc, skip)
        else .ok (acc, clean :: skip)

/-- Format every row of a list, stopping at the first exception. -/
def formatAll (parse : String → Option String) :
    List Record → Except String (List Record)
  | [] => .ok []
  | r :: t =>
    match format_record parse r with
    | .error e => .error e
    | .ok c =>
      match formatAll parse t with
      | .error e => .error e
      | .ok cs => .ok (c :: cs)

/-- A date parser that fails on every input, modelling `dateparser.parse`
returning `None`. -/
def pnone : String → Option String := fun _ => none

/-- A date parser that succeeds on every input with the input itself as
the rendered timestamp. -/
def pId : String → Option String := fun s => some s

/-! ### Helper lemmas about records -/

theorem getVal_setVal_self (rec : Record) (k : String) (v : Value) :
    getVal (setVal rec k v) k = some v := by
  induction rec with
  | nil => simp [setVal, getVal]
  | cons p t ih =>
    by_cases h : p.1 = k
    · simp [setVal, getVal, h]
    · simp [setVal, getVal, h, ih]

theorem getVal_setVal_ne (rec : Record) {k k' : String} (v : Value)
    (h : k ≠ k') : getVal (setVal rec k v) k' = getVal rec k' := by
  induction rec with
  | nil => simp [setVal, getVal, h]
  | cons p t ih =>
    by_cases hp : p.1 = k
    · simp [setVal, getVal, hp, h]
    · simp [setVal, getVal, hp, ih]

/-- A successful date iteration either leaves the record alone or writes
some ISO string to `time`. -/
theorem dateField_ok_shape {parse : String → Option String} {rec : Record}
    {fld : String} {r : Record} (h : dateField parse rec fld = .ok r) :
    r = rec ∨ ∃ iso, r = setVal rec "time" (Value.str iso) := by
  unfold dateField at h
  split at h
  · injection h with h
    exact Or.inl h.symm
  · split at h
    · split at h
      · split at h
        · injection h with h
          exact Or.inr ⟨_, h.symm⟩
        · cases h
      · cases h
    · injection h with h
      exact Or.inl h.symm

/-- A successful date iteration changes no key other than `time`. -/
theorem dateField_preserves {parse : String → Option String} {rec : Record}
    {fld : String} {r : Record} (h : dateField parse rec fld = .ok r)
    (k : String) (hk : k ≠ "time") : getVal r k = getVal rec k := by
  rcases dateField_ok_shape h with h1 | ⟨iso, h1⟩
  · rw [h1]
  · rw [h1, getVal_setVal_ne _ _ (fun he => hk he.symm)]

/-- A successful coordinate rule either leaves the record alone or writes
numeric values to `lat` and `lon`. -/
theorem latLonStep_ok_shape {rec r : Record} (h : latLonStep rec = .ok r) :
    r = rec ∨ ∃ a b, r = setVal (setVal rec "lat" a) "lon" b := by
  unfold latLonStep at h
  split at h
  · injection h with h
    exact Or.inl h.symm
  · split at h
    · split at h
      · split at h
        · injection h with h
          exact Or.inr ⟨_, _, h.symm⟩
        · injection h with h
          exact Or.inl h.symm
      · cases h
    · injection h with h
      exact Or.inl h.symm

/-- A successful coordinate rule changes no key other than `lat`, `lon`. -/
theorem latLonStep_preserves {rec r : Record} (h : latLonStep rec = .ok r)
    (k : String) (h1 : k ≠ "lat") (h2 : k ≠ "lon") :
    getVal r k = getVal rec k := by
  rcases latLonStep_ok_shape h with he | ⟨a, b, he⟩
  · rw [he]
  · rw [he, getVal_setVal_ne _ _ (fun x => h2 x.symm),
      getVal_setVal_ne _ _ (fun x => h1 x.symm)]

/-- A successful depth rule either leaves the record alone or writes a
string to `depth`. -/
theorem depthStep_ok_shape {rec r : Record} (h : depthStep rec = .ok r) :
    r = rec ∨ ∃ g, r = setVal rec "depth" g := by
  unfold depthStep at h
  split at h
  · injection h with h
    exact Or.inl h.symm
  · split at h
    · split at h
      · split at h
        · injection h with h
          exact Or.inr ⟨_, h.symm⟩
        · injection h with h
          exact Or.inl h.symm
      · cases h
    · injection h with h
      exact Or.inl h.symm

/-- A successful depth rule changes no key other than `depth`. -/
theorem depthStep_preserves {rec r : Record} (h : depthStep rec = .ok r)
    (k : String) (hk : k ≠ "depth") : getVal r k = getVal rec k := by
  rcases depthStep_ok_shape h with he | ⟨g, he⟩
  · rw [he]
  · rw [he, getVal_setVal_ne _ _ (fun x => hk x.symm)]

/-- A successful `format_record` run decomposes into its four successful
steps. -/
theorem format_record_ok {parse : String → Option String} {rec r : Record}
    (h : format_record parse rec = .ok r) :
    ∃ r1 r2 r3, dateField parse rec "time" = .ok r1 ∧
      dateField parse r1 "collection_date" = .ok r2 ∧
      latLonStep r2 = .ok r3 ∧ depthStep r3 = .ok r := by
  unfold format_record at h
  split at h
  · cases h
  · rename_i r1 h1
    split at h
    · cases h
    · rename_i r2 h2
      split at h
      · cases h
      · rename_i r3 h3
        exact ⟨r1, r2, r3, h1, h2, h3, h⟩

/-! ### Helper lemmas about `normalize` -/

/-- A string already in snake_case: lowercase letters and digits joined
by underscores. -/
def isSnakeCase (s : String) : Bool :=
  s.toList.all fun c => isLowerAZ c || isDigit09 c || c = '_'

theorem snakeChar_not_upper {c : Char}
    (h : (isLowerAZ c || isDigit09 c || c = '_') = true) :
    isUpperAZ c = false := by
  simp only [isLowerAZ, isDigit09, Bool.or_eq_true, Bool.and_eq_true,
    decide_eq_true_eq] at h
  apply eq_false_of_ne_true
  intro hup
  simp only [isUpperAZ, Bool.and_eq_true, decide_eq_true_eq] at hup
  obtain ⟨hA, hZ⟩ := hup
  rcases h with (⟨ha, _⟩ | ⟨_, h9⟩) | he
  · exact absurd (le_trans ha hZ) (by decide)
  · exact absurd (le_trans hA h9) (by decide)
  · subst he
    exact absurd hZ (by decide)

theorem lowerCh_fix {c : Char} (h : isUpperAZ c = false) : lowerCh c = c := by
  simp [lowerCh, h]

theorem capsUnderSub_noUpper {l : List Char}
    (h : ∀ c ∈ l, isUpperAZ c = false) : capsUnderSub l = l := by
  induction l with
  | nil => rfl
  | cons c t ih =>
    have hc := h c (List.mem_cons_self c t)
    simp only [capsUnderSub, hc, Bool.false_and, Bool.false_eq_true,
      if_false, List.cons.injEq, true_and]
    exact ih fun x hx => h x (List.mem_cons_of_mem c hx)

theorem camelSub_noUpper {l : List Char}
    (h : ∀ c ∈ l, isUpperAZ c = false) : ∀ p, camelSub p l = l := by
  induction l with
  | nil => intro p; rfl
  | cons c t ih =>
    intro p
    have hc := h c (List.mem_cons_self c t)
    simp only [camelSub, hc, Bool.false_and, Bool.false_eq_true,
      if_false, List.cons.injEq, true_and]
    exact ih (fun x hx => h x (List.mem_cons_of_mem c hx)) (some c)

theorem map_lowerCh_noUpper {l : List Char}
    (h : ∀ c ∈ l, isUpperAZ c = false) : l.map lowerCh = l := by
  induction l with
  | nil => rfl
  | cons c t ih =>
    simp only [List.map_cons, lowerCh_fix (h c (List.mem_cons_self c t)),
      List.cons.injEq, true_and]
    exact ih fun x hx => h x (List.mem_cons_of_mem c hx)

theorem splitUnderscore_ne_nil (l : List Char) : splitUnderscore l ≠ [] := by
  cases l with
  | nil => simp [splitUnderscore]
  | cons c t =>
    by_cases h : c = '_'
    · simp [splitUnderscore, h]
    · simp only [splitUnderscore, h, if_false]
      cases splitUnderscore t <;> simp

theorem joinUnderscore_cons (c : Char) (g : List Char) (gs : List (List Char)) :
    joinUnderscore ((c :: g) :: gs) = c :: joinUnderscore (g :: gs) := by
  cases gs <;> rfl

theorem join_map_split (f : Char → Char) (hf : f '_' = '_') :
    ∀ l : List Char,
      joinUnderscore ((splitUnderscore l).map (List.map f)) = l.map f := by
  intro l
  induction l with
  | nil => rfl
  | cons c t ih =>
    obtain ⟨g, gs, hgs⟩ := List.exists_cons_of_ne_nil (splitUnderscore_ne_nil t)
    rw [hgs] at ih
    simp only [List.map_cons] at ih
    by_cases h : c = '_'
    · subst h
      have hs : splitUnderscore ('_' :: t) = [] :: g :: gs := by
        simp [splitUnderscore, hgs]
      rw [hs]
      simp only [List.map_cons, List.map_nil]
      show '_' :: joinUnderscore (List.map f g :: List.map (List.map f) gs)
          = List.map f ('_' :: t)
      rw [ih, List.map_cons, hf]
    · have hs : splitUnderscore (c :: t) = (c :: g) :: gs := by
        simp [splitUnderscore, h, hgs]
      rw [hs]
      simp only [List.map_cons]
      rw [joinUnderscore_cons, ih]

theorem strMk_toList (s : String) : String.mk s.toList = s := rfl

/-! ### Helper lemmas about field reconciliation -/

theorem foldl_insertKey (l : List String) :
    ∀ acc, l.foldl insertKey acc = acc ++ restNew acc l := by
  induction l with
  | nil => intro acc; simp [restNew]
  | cons x t ih =>
    intro acc
    by_cases hx : x ∈ acc
    · simp only [List.foldl_cons, restNew, if_pos hx, insertKey]
      exact ih acc
    · simp only [List.foldl_cons, restNew, if_neg hx, insertKey]
      rw [ih (acc ++ [x]), List.append_assoc]
      rfl

theorem restNew_shift (acc1 : List String) :
    ∀ (l : List String) (acc2 : List String),
      restNew (acc1 ++ acc2) l
        = restNew acc2 (l.filter fun x => decide (x ∉ acc1)) := by
  intro l
  induction l with
  | nil => intro acc2; rfl
  | cons x t ih =>
    intro acc2
    by_cases h1 : x ∈ acc1
    · rw [List.filter_cons_of_neg (by simp [h1]), restNew,
        if_pos (List.mem_append_left acc2 h1)]
      exact ih acc2
    · rw [List.filter_cons_of_pos (by simp [h1])]
      by_cases h2 : x ∈ acc2
      · rw [restNew, if_pos (List.mem_append_right acc1 h2), restNew, if_pos h2]
        exact ih acc2
      · have hx : x ∉ acc1 ++ acc2 := by simp [List.mem_append, h1, h2]
        rw [restNew, if_neg hx, restNew, if_neg h2]
        have h3 := ih (acc2 ++ [x])
        rw [← List.append_assoc] at h3
        rw [h3]

/-! ### Helper lemmas about the matchers -/

theorem numAlts_digits {s : List Char} {p : List Char × List Char}
    (h : p ∈ numAlts s) : p.1.all isDigit09 = true := by
  unfold numAlts at h
  simp only [List.mem_map, List.mem_range] at h
  obtain ⟨i, _, hi⟩ := h
  rw [List.all_eq_true]
  intro c hc
  rw [← hi] at hc
  exact List.mem_takeWhile_imp (List.mem_of_mem_take hc)

theorem fracAlts_chars {r : List Char} {q : List Char × List Char}
    (h : q ∈ fracAlts r) : (q.1.all fun c => isDigit09 c || c = '.') = true := by
  unfold fracAlts at h
  split at h
  · simp only [List.mem_append, List.mem_map, List.mem_singleton] at h
    rcases h with ⟨p, hp, hq⟩ | hq
    · rw [← hq]
      rw [List.all_eq_true]
      intro c hc
      rcases List.mem_cons.mp hc with hc | hc
      · subst hc; decide
      · have := List.all_eq_true.mp (numAlts_digits hp) c hc
        simp [this]
    · rw [hq]
      rfl
  · simp only [List.mem_singleton] at h
    rw [h]
    rfl

theorem decAlts_chars {s : List Char} {p : List Char × List Char}
    (h : p ∈ decAlts s) : (p.1.all fun c => isDigit09 c || c = '.') = true := by
  unfold decAlts at h
  simp only [List.mem_flatMap, List.mem_map] at h
  obtain ⟨a, ha, q, hq, hpq⟩ := h
  rw [← hpq, List.all_append]
  have h1 : (a.1.all fun c => isDigit09 c || c = '.') = true := by
    rw [List.all_eq_true]
    intro c hc
    have := List.all_eq_true.mp (numAlts_digits ha) c hc
    simp [this]
  rw [h1, fracAlts_chars hq]
  rfl

/-- Every group the depth search returns is made of digits and dots: the
pattern `(\d+(\.\d+)?)` can capture no sign. -/
theorem searchDec_chars : ∀ {s g : List Char}, searchDec s = some g →
    (g.all fun c => isDigit09 c || c = '.') = true := by
  intro s
  induction s with
  | nil => intro g h; cases h
  | cons c t ih =>
    intro g h
    unfold searchDec at h
    split at h
    · rename_i p hp
      injection h with h
      have hmem : p ∈ decAlts (c :: t) := by
        cases hd : decAlts (c :: t) with
        | nil => rw [hd] at hp; cases hp
        | cons a l =>
          rw [hd] at hp
          injection hp with hp
          rw [← hp]
          exact List.mem_cons_self a l
      rw [← h]
      exact decAlts_chars hmem
    · exact ih h

/-- When `lat_lon` holds a string the search matches, the coordinate rule
writes the two parsed, hemisphere-signed numbers to `lat` and `lon`. -/
theorem latLonStep_match {rec : Record} {s : String} {m : LatLonMatch}
    (h1 : getVal rec "lat_lon" = some (Value.str s))
    (h2 : searchLatLon s.toList = some m) :
    latLonStep rec = .ok (setVal (setVal rec "lat"
        (Value.num (if m.latDir = some 'S' then -parseDec m.lat else parseDec m.lat)))
      "lon"
        (Value.num (if m.lonDir = some 'W' then -parseDec m.lon else parseDec m.lon))) := by
  have hs : s ≠ "" := by
    intro he
    subst he
    simp [searchLatLon] at h2
  have ht : truthy (Value.str s) = true := by simp [truthy, hs]
  unfold latLonStep
  simp only [h1, ht, if_true, h2]

/-- When the candidate field holds a truthy string the parser accepts, the
date iteration overwrites `time` with the rendered timestamp. -/
theorem dateField_write {parse : String → Option String} {rec : Record}
    {fld cv ci : String}
    (h1 : getVal rec fld = some (Value.str cv)) (h2 : cv ≠ "")
    (h3 : parse cv = some ci) :
    dateField parse rec fld = .ok (setVal rec "time" (Value.str ci)) := by
  have ht : truthy (Value.str cv) = true := by simp [truthy, h2]
  unfold dateField
  simp only [h1, ht, if_true, h3]

/-- When the depth candidate is a string the depth search matches, the
depth rule overwrites `depth` with the captured group. -/
theorem depthStep_match {rec : Record} {s : String} {g : List Char}
    (h1 : depthCand rec = some (Value.str s))
    (h2 : searchDec s.toList = some g) :
    depthStep rec = .ok (setVal rec "depth" (Value.str (String.mk g))) := by
  have hs : s ≠ "" := by
    intro he
    subst he
    simp [searchDec] at h2
  have ht : truthy (Value.str s) = true := by simp [truthy, hs]
  unfold depthStep
  simp only [h1, ht, if_true, h2]

/-- When the depth candidate is a string the depth search rejects, the
depth rule leaves the record unchanged. -/
theorem depthStep_nomatch {rec : Record} {s : String}
    (h1 : depthCand rec = some (Value.str s))
    (h2 : searchDec s.toList = none) :
    depthStep rec = .ok rec := by
  by_cases hs : s = ""
  · subst hs
    unfold depthStep
    simp only [h1]
    rfl
  · have ht : truthy (Value.str s) = true := by simp [truthy, hs]
    unfold depthStep
    simp only [h1, ht, if_true, h2]

/-! ### Concrete values -/

theorem parseDec_37_8305 : parseDec "37.8305" = (37.8305 : ℚ) := by
  rw [show parseDec "37.8305" = ((37 : ℕ) : ℚ) + mkRat 8305 (10 ^ 4) from rfl,
    Rat.mkRat_eq_div]
  norm_num

theorem parseDec_41_1248 : parseDec "41.1248" = (41.1248 : ℚ) := by
  rw [show parseDec "41.1248" = ((41 : ℕ) : ℚ) + mkRat 1248 (10 ^ 4) from rfl,
    Rat.mkRat_eq_div]
  norm_num

theorem parseDec_10_5 : parseDec "10.5" = (10.5 : ℚ) := by
  rw [show parseDec "10.5" = ((10 : ℕ) : ℚ) + mkRat 5 (10 ^ 1) from rfl,
    Rat.mkRat_eq_div]
  norm_num

theorem parseDec_20_25 : parseDec "20.25" = (20.25 : ℚ) := by
  rw [show parseDec "20.25" = ((20 : ℕ) : ℚ) + mkRat 25 (10 ^ 2) from rfl,
    Rat.mkRat_eq_div]
  norm_num

/-- A record holding one field `lat_lon` with the given text. -/
def llRec (s : String) : Record := [("lat_lon", Value.str s)]

/-- `format_record` on a record holding only `lat_lon`, when the search
matches: the date rules are inert, the coordinate rule writes `lat` and
`lon`, and the depth rule is inert on the result. -/
theorem format_record_latlon {s : String} {m : LatLonMatch} {out : Record}
    (hm : searchLatLon s.toList = some m)
    (hout : setVal (setVal (llRec s) "lat"
        (Value.num (if m.latDir = some 'S' then -parseDec m.lat else parseDec m.lat)))
        "lon"
        (Value.num (if m.lonDir = some 'W' then -parseDec m.lon else parseDec m.lon))
        = out)
    (hd : depthStep out = .ok out) :
    format_record pnone (llRec s) = .ok out := by
  have h := @latLonStep_match (llRec s) s m rfl hm
  rw [hout] at h
  simp only [format_record,
    show dateField pnone (llRec s) "time" = .ok (llRec s) from rfl,
    show dateField pnone (llRec s) "collection_date" = .ok (llRec s) from rfl,
    h, hd]

/-! ### Example records for the claims -/

/-- A record holding only an unparseable date. -/
def recBadDate : Record := [("time", Value.str "not a date")]

/-- A record whose four required keys are present but hold empty text. -/
def recEmpty4 : Record :=
  [("time", Value.str ""), ("lat", Value.str ""), ("lon", Value.str ""),
   ("depth", Value.str "")]

/-- A record missing the `lat` key. -/
def recNoLat : Record :=
  [("time", Value.str ""), ("lon", Value.str ""), ("depth", Value.str "")]

/-- A record with both date candidate fields non-empty. -/
def recBothDates : Record :=
  [("time", Value.str "A"), ("collection_date", Value.str "B")]

/-- `recBothDates` after formatting with the identity parser. -/
def recBothDatesOut : Record :=
  [("time", Value.str "B"), ("collection_date", Value.str "B")]

/-! ### The claims -/

/-- C1: the claim — matching the spec's stated design — says a record
whose candidate date field is non-empty but unparseable is left with
`time` as found and no error is raised.  The code instead calls
`.isoformat()` on the `None` that `dateparser.parse` returned, raising an
uncaught `AttributeError`: the code is the slip. -/
theorem C1_unparseable_date_raises :
    format_record pnone recBadDate = .error "AttributeError" := rfl

/-- C2 counterexample: on the claim's own input `"37.8305 S, 41.1248 W"`
the separator class `[,\s]` consumes exactly one character (the comma),
the following space cannot start the second number, and backtracking
finds no match anywhere in the string: the record keeps `lat`/`lon`
unset instead of receiving `-37.8305`/`-41.1248`. -/
theorem C2_comma_space_unmatched :
    searchLatLon "37.8305 S, 41.1248 W".toList = none ∧
    format_record pnone (llRec "37.8305 S, 41.1248 W") =
      .ok (llRec "37.8305 S, 41.1248 W") ∧
    getVal (llRec "37.8305 S, 41.1248 W") "lat" = none ∧
    getVal (llRec "37.8305 S, 41.1248 W") "lon" = none :=
  ⟨rfl, rfl, rfl, rfl⟩

/-- C2 (amended): on a pattern match the two numbers are parsed as
floats, the first negated exactly when its hemisphere letter is `S`, the
second exactly when it is `W`, and the results are written to `lat` and
`lon`; the separator between the two numbers is a single comma or
whitespace character, so the space-separated `"37.8305 S 41.1248 W"`
yields `lat = -37.8305`, `lon = -41.1248`, `"10.5 N 20.25 E"` yields
`10.5`/`20.25`, numbers without hemisphere letters yield unsigned
values, and an unsupported format leaves `lat`/`lon` unset. -/
theorem C2_coordinate_extraction :
    (∀ (rec : Record) (s : String) (m : LatLonMatch) (r : Record),
      getVal rec "lat_lon" = some (Value.str s) →
      searchLatLon s.toList = some m →
      latLonStep rec = .ok r →
      getVal r "lat" = some (Value.num
        (if m.latDir = some 'S' then -parseDec m.lat else parseDec m.lat)) ∧
      getVal r "lon" = some (Value.num
        (if m.lonDir = some 'W' then -parseDec m.lon else parseDec m.lon))) ∧
    format_record pnone (llRec "37.8305 S 41.1248 W") =
      .ok [("lat_lon", Value.str "37.8305 S 41.1248 W"),
           ("lat", Value.num (-(37.8305 : ℚ))),
           ("lon", Value.num (-(41.1248 : ℚ)))] ∧
    format_record pnone (llRec "10.5 N 20.25 E") =
      .ok [("lat_lon", Value.str "10.5 N 20.25 E"),
           ("lat", Value.num (10.5 : ℚ)), ("lon", Value.num (20.25 : ℚ))] ∧
    format_record pnone (llRec "10.5 20.25") =
      .ok [("lat_lon", Value.str "10.5 20.25"),
           ("lat", Value.num (10.5 : ℚ)), ("lon", Value.num (20.25 : ℚ))] ∧
    format_record pnone (llRec "37°49.5 S") = .ok (llRec "37°49.5 S") := by
  refine ⟨?_, ?_, ?_, ?_, rfl⟩
  · intro rec s m r h1 h2 h3
    rw [latLonStep_match h1 h2] at h3
    injection h3 with h3
    constructor
    · rw [← h3, getVal_setVal_ne _ _ (by decide), getVal_setVal_self]
    · rw [← h3, getVal_setVal_self]
  · exact format_record_latlon
      (m := ⟨"37.8305", some 'S', "41.1248", some 'W'⟩) rfl
      (by simp only [parseDec_37_8305, parseDec_41_1248]
          rfl) rfl
  · exact format_record_latlon
      (m := ⟨"10.5", some 'N', "20.25", some 'E'⟩) rfl
      (by simp only [parseDec_10_5, parseDec_20_25]
          rfl) rfl
  · exact format_record_latlon
      (m := ⟨"10.5", none, "20.25", none⟩) rfl
      (by simp only [parseDec_10_5, parseDec_20_25]
          rfl) rfl

/-- C3 counterexample: a record whose four required keys are present but
all hold empty text is accepted by the code — `main` tests key presence
(`fld in row`), not non-emptiness — while the claim requires all four
values to be non-empty for acceptance. -/
theorem C3_empty_values_accepted :
    format_record pnone recEmpty4 = .ok recEmpty4 ∧
    accepts recEmpty4 = true ∧
    acceptsSpec recEmpty4 = false ∧
    processRows pnone [recEmpty4] = .ok ([recEmpty4], []) :=
  ⟨rfl, rfl, rfl, rfl⟩

/-- C3 (amended): a row is accepted for output iff all four required
canonical fields are present as keys of the cleaned (post-formatting)
record, their values possibly empty; a rejected row is diverted to the
diagnostic list and the remaining rows of the file keep processing. -/
theorem C3_acceptance_partitions (parse : String → Option String)
    (rows cleans : List Record)
    (h : formatAll parse rows = .ok cleans) :
    processRows parse rows =
      .ok (cleans.filter accepts, cleans.filter fun c => !(accepts c)) := by
  induction rows generalizing cleans with
  | nil =>
    unfold formatAll at h
    injection h with h
    subst h
    rfl
  | cons r t ih =>
    unfold formatAll at h
    split at h
    · cases h
    · rename_i c h1
      split at h
      · cases h
      · rename_i cs h2
        injection h with h
        subst h
        unfold processRows
        simp only [h1, ih cs h2]
        by_cases ha : accepts c = true
        · rw [if_pos ha, List.filter_cons_of_pos ha,
            List.filter_cons_of_neg (by simp [ha])]
        · rw [if_neg ha, List.filter_cons_of_neg (by simpa using ha),
            List.filter_cons_of_pos (by simpa using ha)]

/-- C3 (amended) witness: one present-but-empty row is accepted, one row
missing `lat` is diverted, on concrete inputs. -/
theorem C3_acceptance_partitions_witness :
    processRows pnone [recEmpty4, recNoLat] =
      .ok ([recEmpty4, recNoLat].filter accepts,
           [recEmpty4, recNoLat].filter fun c => !(accepts c)) :=
  C3_acceptance_partitions pnone [recEmpty4, recNoLat] [recEmpty4, recNoLat] rfl

/-- C4 counterexample: with both `time` and `collection_date` non-empty
and parseable (identity parser), the loop has no break, so the parsed
`collection_date` — not the parsed `time` — ends up in `time`. -/
theorem C4_collection_date_overwrites :
    format_record pId recBothDates = .ok recBothDatesOut ∧
    ¬ ∃ r, format_record pId recBothDates = .ok r ∧
        getVal r "time" = some (Value.str "A") := by
  refine ⟨rfl, ?_⟩
  rintro ⟨r, h1, h2⟩
  rw [show format_record pId recBothDates = .ok recBothDatesOut from rfl] at h1
  injection h1 with h1
  rw [← h1] at h2
  exact absurd h2 (by decide)

/-- C4 (amended): the candidate loop has no break, so the LAST non-empty
candidate wins: whenever `collection_date` is non-empty and parseable and
formatting succeeds, the final `time` holds the parsed `collection_date`;
the parsed `time` survives only when `collection_date` is empty or
absent. -/
theorem C4_last_candidate_wins (parse : String → Option String)
    (rec : Record) (cv ci : String) (r : Record)
    (h1 : getVal rec "collection_date" = some (Value.str cv)) (h2 : cv ≠ "")
    (h3 : parse cv = some ci) (h4 : format_record parse rec = .ok r) :
    getVal r "time" = some (Value.str ci) := by
  obtain ⟨r1, r2, r3, hd1, hd2, hll, hdp⟩ := format_record_ok h4
  have hc1 : getVal r1 "collection_date" = some (Value.str cv) := by
    rw [dateField_preserves hd1 _ (by decide), h1]
  rw [dateField_write hc1 h2 h3] at hd2
  injection hd2 with hd2
  have ht2 : getVal r2 "time" = some (Value.str ci) := by
    rw [← hd2, getVal_setVal_self]
  rw [depthStep_preserves hdp _ (by decide),
    latLonStep_preserves hll _ (by decide) (by decide), ht2]

/-- C4 (amended) witness at the concrete both-dates record. -/
theorem C4_last_candidate_wins_witness :
    getVal recBothDatesOut "time" = some (Value.str "B") :=
  C4_last_candidate_wins pId recBothDates "B" "B" recBothDatesOut rfl
    (by decide) rfl rfl

/-- C5: depth formatting falls back to `sample_depth` when `depth` is
absent, extracts the first decimal-number substring of the candidate and
overwrites `depth` with it as text, discarding any trailing unit suffix,
and leaves the record unchanged when no numeric substring occurs:
`"9m"` → `"9"`, `"12.5 meters"` → `"12.5"`, `"no data"` → unchanged. -/
theorem C5_depth_extraction :
    (∀ rec : Record, getVal rec "depth" = none →
      depthCand rec = getVal rec "sample_depth") ∧
    (∀ (rec : Record) (s : String) (g : List Char),
      depthCand rec = some (Value.str s) → searchDec s.toList = some g →
      depthStep rec = .ok (setVal rec "depth" (Value.str (String.mk g)))) ∧
    (∀ (rec : Record) (s : String),
      depthCand rec = some (Value.str s) → searchDec s.toList = none →
      depthStep rec = .ok rec) ∧
    format_record pnone [("depth", Value.str "9m")] =
      .ok [("depth", Value.str "9")] ∧
    format_record pnone [("depth", Value.str "12.5 meters")] =
      .ok [("depth", Value.str "12.5")] ∧
    format_record pnone [("depth", Value.str "no data")] =
      .ok [("depth", Value.str "no data")] ∧
    format_record pnone [("sample_depth", Value.str "9m")] =
      .ok [("sample_depth", Value.str "9m"), ("depth", Value.str "9")] := by
  refine ⟨?_, ?_, ?_, rfl, rfl, rfl, rfl⟩
  · intro rec h
    unfold depthCand
    rw [h]
  · intro rec s g h1 h2
    exact depthStep_match h1 h2
  · intro rec s h1 h2
    exact depthStep_nomatch h1 h2

/-- C5 witness: the fallback-and-extract conjunct at the concrete record
holding only `sample_depth = "9m"`. -/
theorem C5_depth_extraction_witness :
    depthStep [("sample_depth", Value.str "9m")] =
      .ok (setVal [("sample_depth", Value.str "9m")] "depth"
        (Value.str (String.mk ['9']))) :=
  C5_depth_extraction.2.1 [("sample_depth", Value.str "9m")] "9m" ['9'] rfl rfl

/-- C6: for every input header, the output column list is the four
required canonical fields first, in the fixed order
`time, lat, lon, depth`, followed by the remaining fields' canonical
names in first-seen order, deduplicated; the header
`[foo, Bar_Baz, time]` yields `[time, lat, lon, depth, foo, bar_baz]`. -/
theorem C6_ordered_fields :
    (∀ header : List String, ordered_flds header =
      req_flds ++ dedupFirst ((header.map normalize).filter
        fun x => decide (x ∉ req_flds))) ∧
    ordered_flds ["foo", "Bar_Baz", "time"] =
      ["time", "lat", "lon", "depth", "foo", "bar_baz"] := by
  constructor
  · intro header
    unfold ordered_flds
    rw [List.map_append, List.foldl_append]
    have h0 : (req_flds.map normalize).foldl insertKey [] = req_flds := by
      decide
    rw [h0, foldl_insertKey]
    unfold dedupFirst
    have h1 := restNew_shift req_flds (header.map normalize) []
    rw [List.append_nil] at h1
    rw [h1]
  · decide

/-- C7: the normalizer's canonicalization on the spec's examples:
`BioSample` → `bio_sample`, `DATASTORE_filetype` → `datastore_filetype`,
`SRA_Study` → `sra_study`, and the empty string is unchanged. -/
theorem C7_normalize_examples :
    normalize "BioSample" = "bio_sample" ∧
    normalize "DATASTORE_filetype" = "datastore_filetype" ∧
    normalize "SRA_Study" = "sra_study" ∧
    normalize "" = "" :=
  ⟨rfl, rfl, rfl, rfl⟩

/-- C8: `normalize` is the identity on every string already in
snake_case (lowercase letters and digits joined by underscores), and
hence idempotent on such strings. -/
theorem C8_snake_case_idempotent (x : String) (h : isSnakeCase x = true) :
    normalize x = x ∧ normalize (normalize x) = normalize x := by
  have hall : ∀ c ∈ x.toList, isUpperAZ c = false := fun c hc =>
    snakeChar_not_upper (List.all_eq_true.mp h c hc)
  have h1 : normalize x = x := by
    simp only [normalize]
    rw [capsUnderSub_noUpper hall]
    by_cases hc : x.toList.contains '_' = true
    · rw [if_pos hc, join_map_split lowerCh (by decide) x.toList,
        map_lowerCh_noUpper hall, strMk_toList]
    · rw [if_neg hc, camelSub_noUpper hall none,
        map_lowerCh_noUpper hall, strMk_toList]
  refine ⟨h1, ?_⟩
  rw [h1]
  exact h1

/-- C8 witness at the concrete snake_case string `sra_study`. -/
theorem C8_snake_case_idempotent_witness :
    normalize "sra_study" = "sra_study" ∧
    normalize (normalize "sra_study") = normalize "sra_study" :=
  C8_snake_case_idempotent "sra_study" (by decide)

/-- C9: the depth pattern `(\d+(\.\d+)?)` can capture only digits and a
dot — never a sign — so a negative depth such as `"-5 m"` is silently
turned into the unsigned text `"5"`. -/
theorem C9_sign_never_captured :
    (∀ s g : List Char, searchDec s = some g →
      (g.all fun c => isDigit09 c || c = '.') = true) ∧
    format_record pnone [("depth", Value.str "-5 m")] =
      .ok [("depth", Value.str "5")] :=
  ⟨fun _ _ h => searchDec_chars h, rfl⟩

/-- C9 witness: the captured group for `"-5 m"` is the sign-free `"5"`. -/
theorem C9_sign_never_captured_witness :
    (['5'].all fun c => isDigit09 c || c = '.') = true :=
  C9_sign_never_captured.1 "-5 m".toList ['5'] rfl

/-- C10: coordinate extraction is a substring search, not a full-string
match: a coordinate pair embedded in surrounding text still matches and
sets `lat` and `lon` from the first embedded match. -/
theorem C10_embedded_substring_match :
    format_record pnone (llRec "station A 10.5 N 20.25 E end") =
      .ok [("lat_lon", Value.str "station A 10.5 N 20.25 E end"),
           ("lat", Value.num (10.5 : ℚ)), ("lon", Value.num (20.25 : ℚ))] :=
  format_record_latlon (m := ⟨"10.5", some 'N', "20.25", some 'E'⟩) rfl
    (by simp only [parseDec_10_5, parseDec_20_25]
        rfl) rfl

end Sra2cmap
